import Mathlib

/-!
Shallow embedding of the tasktiger worker core (`src/tasktiger.py`): the
task data model, the broker state (status sets, per-queue status sorted
sets, task records, execution logs, activity channel), the enqueue
(`delay`), claim, post-execution reconciliation, expired-task reclaim and
executor-outcome logic, together with theorems checking the specification
against this embedding.

Scores and timestamps are modelled as `Int` (Python uses floats; no claim
depends on sub-second resolution).  Redis sorted sets are association
lists from member to score; sets are lists with set semantics.  The two
server-side scripts (`zpoppush`, `srem_if_not_exists`,
`delete_if_not_in_zsets`) live in `redis_scripts.py`, which is not part
of the sources; they are modelled from the spec (section 4.2).
-/

namespace TaskTiger

/-- Configuration constants from the top of `tasktiger.py`. -/
def DEFAULT_QUEUE : String := "default"

def DEFAULT_HARD_TIMEOUT : Nat := 300

def ACTIVE_TASK_UPDATE_TIMEOUT : Int := 60

def ACTIVE_TASK_EXPIRED_BATCH_SIZE : Nat := 10

/-- JSON values, the payload type for `args` / `kwargs` and the input of
`json.dumps`.  Numbers are modelled as integers. -/
inductive JVal where
  | null : JVal
  | bool : Bool → JVal
  | num : Int → JVal
  | str : String → JVal
  | arr : List JVal → JVal
  | obj : List (String × JVal) → JVal

/-- Python truthiness of a JSON value (`if args:` in `delay`). -/
def JVal.truthy : JVal → Bool
  | .null => false
  | .bool b => b
  | .num n => n != 0
  | .str s => s.length != 0
  | .arr l => !l.isEmpty
  | .obj l => !l.isEmpty

/-- One hexadecimal digit, lower case. -/
def hexDigit (n : Nat) : Char :=
  if n < 10 then Char.ofNat (48 + n) else Char.ofNat (87 + n % 16)

/-- Decimal digits of a natural number (with structural fuel). -/
def natDigits : Nat → Nat → List Char
  | 0, _ => []
  | _ + 1, 0 => []
  | fuel + 1, n => natDigits fuel (n / 10) ++ [Char.ofNat (48 + n % 10)]

/-- Python `repr` of a natural number. -/
def natRepr (n : Nat) : String :=
  if n = 0 then "0" else String.mk (natDigits n n)

/-- Python `repr` of an integer (what `json.dumps` emits for one). -/
def intRepr : Int → String
  | .ofNat n => natRepr n
  | .negSucc n => "-" ++ natRepr (n + 1)

/-- Fixed-width lower-case hexadecimal rendering (most significant first). -/
def hexFixed (width n : Nat) : String :=
  String.mk ((List.range width).map fun i => hexDigit (n >>> (4 * (width - 1 - i)) % 16))

/-- JSON string escaping as performed by `json.dumps` (default
`ensure_ascii`): quote, backslash, newline, tab and carriage return get
two-character escapes, every other character outside printable ASCII is
emitted as a `\uXXXX` escape.  (Python additionally shortens backspace
and form feed, and splits non-BMP code points into surrogate pairs;
neither occurs in anything this model serializes.) -/
def jescChar (c : Char) : String :=
  if c = '"' then "\\\""
  else if c = '\\' then "\\\\"
  else if c = '\n' then "\\n"
  else if c = '\t' then "\\t"
  else if c = '\r' then "\\r"
  else if c.toNat < 32 || c.toNat > 126 then "\\u" ++ hexFixed 4 c.toNat
  else String.singleton c

/-- A JSON string literal with quotes. -/
def jquote (s : String) : String :=
  "\"" ++ String.join (s.data.map jescChar) ++ "\""

/-- Join with the default `json.dumps` item separator. -/
def commaJoin : List String → String
  | [] => ""
  | [x] => x
  | x :: xs => x ++ ", " ++ commaJoin xs

/-- Code-point-wise (equivalently, for ASCII, byte-wise) string order -
the order Python 2 sorts `str` keys by. -/
def strLt : List Char → List Char → Bool
  | [], [] => false
  | [], _ :: _ => true
  | _ :: _, [] => false
  | a :: as, b :: bs =>
      if a.toNat < b.toNat then true
      else if b.toNat < a.toNat then false
      else strLt as bs

/-- Insertion of a key-tagged rendered entry into a key-sorted list
(`sort_keys=True`). -/
def insortEntry (p : String × String) : List (String × String) → List (String × String)
  | [] => [p]
  | q :: qs => if strLt p.1.data q.1.data then p :: q :: qs else q :: insortEntry p qs

/-- Sort rendered object entries by key. -/
def sortEntries (l : List (String × String)) : List (String × String) :=
  l.foldr insortEntry []

mutual

/-- Model of `json.dumps(v, sort_keys=True)` with the default separators of
Python 2's `json` module. -/
def jsonDumps : JVal → String
  | .null => "null"
  | .bool b => if b then "true" else "false"
  | .num n => intRepr n
  | .str s => jquote s
  | .arr l => "[" ++ commaJoin (jsonArr l) ++ "]"
  | .obj l => "\x7b" ++ commaJoin ((sortEntries (jsonObj l)).map Prod.snd) ++ "\x7d"

/-- Rendering of the elements of a JSON array. -/
def jsonArr : List JVal → List String
  | [] => []
  | v :: vs => jsonDumps v :: jsonArr vs

/-- Rendering of the (key, entry) pairs of a JSON object, prior to the
`sort_keys` ordering. -/
def jsonObj : List (String × JVal) → List (String × String)
  | [] => []
  | (s1, v) :: ps => (s1, jquote s1 ++ ": " ++ jsonDumps v) :: jsonObj ps

end

/-- UTF-8 encoding of one code point as a byte list. -/
def utf8Char (c : Nat) : List Nat :=
  if c < 128 then [c]
  else if c < 2048 then [192 + c / 64, 128 + c % 64]
  else if c < 65536 then [224 + c / 4096, 128 + c / 64 % 64, 128 + c % 64]
  else [240 + c / 262144, 128 + c / 4096 % 64, 128 + c / 64 % 64, 128 + c % 64]

/-- UTF-8 bytes of a string. -/
def utf8Bytes (s : String) : List Nat :=
  s.data.foldr (fun c acc => utf8Char c.toNat ++ acc) []

/-! ### SHA-256 (as used by `hashlib.sha256(...).hexdigest()`) -/

/-- The constant `2 ^ 32`, the word modulus of SHA-256. -/
def M32 : Nat := 4294967296

/-- Right rotation of a 32-bit word. -/
def rotr (n x : Nat) : Nat := ((x >>> n) ||| (x <<< (32 - n))) % M32

/-- The 64 SHA-256 round constants (decimal; fractional cube roots of
the first 64 primes, scaled to 32 bits). -/
def sha256K : List Nat :=
  [1116352408, 1899447441, 3049323471, 3921009573, 961987163,
   1508970993, 2453635748, 2870763221, 3624381080, 310598401,
   607225278, 1426881987, 1925078388, 2162078206, 2614888103,
   3248222580, 3835390401, 4022224774, 264347078, 604807628,
   770255983, 1249150122, 1555081692, 1996064986, 2554220882,
   2821834349, 2952996808, 3210313671, 3336571891, 3584528711,
   113926993, 338241895, 666307205, 773529912, 1294757372,
   1396182291, 1695183700, 1986661051, 2177026350, 2456956037,
   2730485921, 2820302411, 3259730800, 3345764771, 3516065817,
   3600352804, 4094571909, 275423344, 430227734, 506948616,
   659060556, 883997877, 958139571, 1322822218, 1537002063,
   1747873779, 1955562222, 2024104815, 2227730452, 2361852424,
   2428436474, 2756734187, 3204031479, 3329325298]

/-- The initial SHA-256 hash state (decimal; fractional square roots of
the first 8 primes, scaled to 32 bits). -/
def sha256H0 : List Nat :=
  [1779033703, 3144134277, 1013904242, 2773480762,
   1359893119, 2600822924, 528734635, 1541459225]

/-- Big-endian 64-bit byte rendering of the message bit length. -/
def be64 (n : Nat) : List Nat :=
  [n >>> 56 % 256, n >>> 48 % 256, n >>> 40 % 256, n >>> 32 % 256,
   n >>> 24 % 256, n >>> 16 % 256, n >>> 8 % 256, n % 256]

/-- SHA-256 message padding. -/
def sha256pad (m : List Nat) : List Nat :=
  m ++ [128] ++ List.replicate ((64 - (m.length + 9) % 64) % 64) 0 ++ be64 (8 * m.length)

/-- Split into 64-byte blocks, with structural fuel (the list length
bounds the number of blocks). -/
def chunksAux : Nat → List Nat → List (List Nat)
  | 0, _ => []
  | _ + 1, [] => []
  | n + 1, l => l.take 64 :: chunksAux n (l.drop 64)

/-- Split a byte list into 64-byte blocks. -/
def chunks64 (l : List Nat) : List (List Nat) :=
  chunksAux l.length l

/-- Big-endian 32-bit words of a block. -/
def toWords : List Nat → List Nat
  | b0 :: b1 :: b2 :: b3 :: rest =>
      (b0 * 16777216 + b1 * 65536 + b2 * 256 + b3) :: toWords rest
  | _ => []

/-- The next word of the SHA-256 message schedule. -/
def nextW (w : List Nat) : Nat :=
  let i := w.length
  ((rotr 17 (w.getD (i - 2) 0) ^^^ rotr 19 (w.getD (i - 2) 0) ^^^ (w.getD (i - 2) 0 >>> 10)) +
   w.getD (i - 7) 0 +
   (rotr 7 (w.getD (i - 15) 0) ^^^ rotr 18 (w.getD (i - 15) 0) ^^^ (w.getD (i - 15) 0 >>> 3)) +
   w.getD (i - 16) 0) % M32

/-- Append the next `n` schedule words. -/
def extendWAux : Nat → List Nat → List Nat
  | 0, w => w
  | n + 1, w => extendWAux n (w ++ [nextW w])

/-- Message-schedule extension from 16 to 64 words. -/
def extendW (w : List Nat) : List Nat :=
  extendWAux (64 - w.length) w

/-- One SHA-256 round on the eight-word working state; `kw` is the sum of
the round constant and the scheduled word. -/
def sha256Round (st : List Nat) (kw : Nat) : List Nat :=
  match st with
  | [a, b, c, d, e, f, g, h] =>
      let s1 := rotr 6 e ^^^ rotr 11 e ^^^ rotr 25 e
      let ch := (e &&& f) ^^^ ((M32 - 1 - e) &&& g)
      let t1 := (h + s1 + ch + kw) % M32
      let s0 := rotr 2 a ^^^ rotr 13 a ^^^ rotr 22 a
      let mj := (a &&& b) ^^^ (a &&& c) ^^^ (b &&& c)
      let t2 := (s0 + mj) % M32
      [(t1 + t2) % M32, a, b, c, (d + t1) % M32, e, f, g]
  | other => other

/-- Compression of one 64-byte block into the running hash state. -/
def compressBlock (hs : List Nat) (block : List Nat) : List Nat :=
  let w := extendW (toWords block)
  let kw := List.zipWith (fun a b => (a + b) % M32) sha256K w
  let st := kw.foldl sha256Round hs
  List.zipWith (fun a b => (a + b) % M32) hs st

/-- SHA-256 digest of a byte list, as a lower-case hex string
(`hashlib.sha256(data).hexdigest()`). -/
def sha256hex (m : List Nat) : String :=
  String.join (((chunks64 (sha256pad m)).foldl compressBlock sha256H0).map (hexFixed 8))

/-- Model of `_gen_unique_id(serialized_name, args, kwargs)`: SHA-256 hexdigest of
the sorted-keys JSON of the func / args / kwargs mapping. -/
def _gen_unique_id (serialized_name : String) (args kwargs : JVal) : String :=
  sha256hex (utf8Bytes (jsonDumps (.obj
    [("func", .str serialized_name), ("args", args), ("kwargs", kwargs)])))

/-! ### Redis data model -/

/-- A Redis sorted set: association list from member to score. -/
abbrev Zset := List (String × Int)

/-- Membership of a member in a sorted set. -/
def zmem (z : Zset) (x : String) : Bool :=
  z.any fun p => p.1 == x

/-- Score of a member, when present. -/
def zscore (z : Zset) (x : String) : Option Int :=
  (z.find? fun p => p.1 == x).map Prod.snd

/-- Redis `ZADD`: insert a member or update its score. -/
def zadd (z : Zset) (x : String) (sc : Int) : Zset :=
  (x, sc) :: z.filter fun p => p.1 != x

/-- Redis `ZREM`: remove a member. -/
def zrem (z : Zset) (x : String) : Zset :=
  z.filter fun p => p.1 != x

/-- Modelled from the spec: the `zpoppush` script of `redis_scripts.py`
(not under the sources).  Removes up to `count` members of `src` whose
score is at most `maxScore` (unbounded when `none`), inserts them into
`dst` with score `newScore`, and returns the moved members together with
the two updated sorted sets. -/
def zpoppush (src dst : Zset) (count : Nat) (maxScore : Option Int) (newScore : Int) :
    List String × Zset × Zset :=
  let eligible := src.filter fun p => match maxScore with
    | none => true
    | some m => decide (p.2 ≤ m)
  let moved := (eligible.take count).map Prod.fst
  (moved,
   src.filter fun p => !moved.contains p.1,
   moved.foldl (fun d x => zadd d x newScore) dst)

/-- Redis `SADD` on a set of queue names. -/
def sadd (l : List String) (x : String) : List String :=
  if l.contains x then l else l ++ [x]

/-- Redis `SREM` on a set of queue names. -/
def srem (l : List String) (x : String) : List String :=
  l.filter fun y => y != x

/-- A stored task record (`task:<id>`); optional fields are present in
the serialized mapping exactly when they are `some` (for `unique`: when
it is `true`). -/
structure TaskRecord where
  id : String
  func : String
  time_last_queued : Int
  unique : Bool
  args : Option JVal
  kwargs : Option JVal
  hard_timeout : Option Nat

/-- One entry of the `task:<id>:executions` list; optional fields model
keys present only on some code paths. -/
structure ExecutionRec where
  time_started : Option Int
  traceback : Option String
  time_failed : Option Int
  success : Bool

/-- The broker state: the three queue status sets, the three per-queue
status sorted sets, the task records, the execution logs, and the log of
messages published on the activity channel. -/
structure Broker where
  queuedSet : List String
  activeSet : List String
  errorSet : List String
  queuedZ : String → Zset
  activeZ : String → Zset
  errorZ : String → Zset
  records : String → Option TaskRecord
  executions : String → List ExecutionRec
  published : List String

/-- The empty broker. -/
def emptyBroker : Broker :=
  { queuedSet := [], activeSet := [], errorSet := [],
    queuedZ := fun _ => [], activeZ := fun _ => [], errorZ := fun _ => [],
    records := fun _ => none, executions := fun _ => [], published := [] }

/-- Pointwise update of a queue-indexed family of sorted sets. -/
def updQ (f : String → Zset) (q : String) (z : Zset) : String → Zset :=
  fun q' => if q' = q then z else f q'

/-- A Python function object: dotted-path components plus the attributes
the `task` decorator may set. -/
structure PyFunc where
  module : String
  name : String
  task_queue : Option String
  task_hard_timeout : Option Nat
  task_unique : Bool

/-- An undecorated function. -/
def mkFunc (module name : String) : PyFunc :=
  { module := module, name := name,
    task_queue := none, task_hard_timeout := none, task_unique := false }

/-- Python truthiness of an optional number (`None` and `0` are falsy). -/
def natOptTruthy : Option Nat → Bool
  | some n => n != 0
  | none => false

/-- Python truthiness of an optional string (`None` and `""` are falsy). -/
def strOptTruthy : Option String → Bool
  | some s => s.length != 0
  | none => false

/-- The `task(queue, hard_timeout, unique)` decorator: each attribute is
set only when the corresponding argument is truthy. -/
def task (queue : Option String) (hard_timeout : Option Nat) (unique : Bool)
    (f : PyFunc) : PyFunc :=
  { f with
    task_hard_timeout := if natOptTruthy hard_timeout then hard_timeout else f.task_hard_timeout,
    task_queue := if strOptTruthy queue then queue else f.task_queue,
    task_unique := if unique then true else f.task_unique }

/-- The task record built by `delay`: optional keys are stored only when
the corresponding value is truthy. -/
def buildTask (task_id serialized_name : String) (args kwargs : JVal) (uniq : Bool)
    (hard_timeout : Option Nat) (now : Int) : TaskRecord :=
  { id := task_id, func := serialized_name, time_last_queued := now,
    unique := uniq,
    args := if args.truthy then some args else none,
    kwargs := if kwargs.truthy then some kwargs else none,
    hard_timeout := if natOptTruthy hard_timeout then hard_timeout else none }

/-- Model of `delay(func, args, kwargs, queue, hard_timeout, unique)`: derive the
task ID (content hash when unique, otherwise the random ID supplied by
the environment as `randId`), build the record, and in one pipeline add
the queue to the `queued` status set, store the record, insert the ID
into `queued:<queue>` scored by `now`, and publish the queue name on the
activity channel.  Returns `none` when `_serialize_func_name` raises
(function from `__main__`); otherwise the model also returns the task ID
and resolved queue for use in theorem statements. -/
def delay (s : Broker) (f : PyFunc) (args kwargs : JVal) (queue : Option String)
    (hard_timeout : Option Nat) (unique : Option Bool) (now : Int) (randId : String) :
    Option (String × String × Broker) :=
  if f.module == "__main__" then none
  else
    let serialized_name := f.module ++ "." ++ f.name
    let uniq := unique.getD f.task_unique
    let task_id := if uniq then _gen_unique_id serialized_name args kwargs else randId
    let q := queue.getD (f.task_queue.getD DEFAULT_QUEUE)
    let trec := buildTask task_id serialized_name args kwargs uniq hard_timeout now
    some (task_id, q,
      { s with
        queuedSet := sadd s.queuedSet q,
        records := fun x => if x = task_id then some trec else s.records x,
        queuedZ := updQ s.queuedZ q (zadd (s.queuedZ q) task_id now),
        published := s.published ++ [q] })

/-- The claim step of `_process_from_queue`: `zpoppush` of one ID from
`queued:<q>` to `active:<q>` with score `now`, with the `update_sets`
callback (add `q` to the `active` status set; drop `q` from the `queued`
status set iff `queued:<q>` became empty) applied when an ID moved. -/
def claimOp (s : Broker) (q : String) (now : Int) : List String × Broker :=
  let r := zpoppush (s.queuedZ q) (s.activeZ q) 1 none now
  (r.1,
   { s with
     queuedZ := updQ s.queuedZ q r.2.1,
     activeZ := updQ s.activeZ q r.2.2,
     activeSet := if r.1.isEmpty then s.activeSet else sadd s.activeSet q,
     queuedSet := if r.1.isEmpty then s.queuedSet
       else if r.2.1.isEmpty then srem s.queuedSet q else s.queuedSet })

/-- Success branch of the post-execution reconciliation: remove the ID
from `active:<q>`; delete the record (unconditionally when not unique,
via `delete_if_not_in_zsets` over `queued:<q>` and `error:<q>` when
unique); `srem_if_not_exists` drops `q` from the `active` status set iff
`active:<q>` is empty after the removal. -/
def successReconcile (s : Broker) (q task_id : String) (uniq : Bool) : Broker :=
  let az := zrem (s.activeZ q) task_id
  { s with
    activeZ := updQ s.activeZ q az,
    records := fun x => if x = task_id then
        (if uniq then
          (if zmem (s.queuedZ q) task_id || zmem (s.errorZ q) task_id then s.records x else none)
         else none)
      else s.records x,
    activeSet := if az.isEmpty then srem s.activeSet q else s.activeSet }

/-- Failure branch of the post-execution reconciliation: remove the ID
from `active:<q>`; add it to `error:<q>` scored by `now`;
`srem_if_not_exists` drops `q` from the `active` status set iff
`active:<q>` is empty after the removal.  (No other key is touched.) -/
def failureReconcile (s : Broker) (q task_id : String) (now : Int) : Broker :=
  let az := zrem (s.activeZ q) task_id
  { s with
    activeZ := updQ s.activeZ q az,
    errorZ := updQ s.errorZ q (zadd (s.errorZ q) task_id now),
    activeSet := if az.isEmpty then srem s.activeSet q else s.activeSet }

/-- One queue of `_worker_queue_expired_tasks`: `zpoppush` of up to
`ACTIVE_TASK_EXPIRED_BATCH_SIZE` IDs of `active:<q>` with score at most
`now - ACTIVE_TASK_UPDATE_TIMEOUT` into `queued:<q>` with new score
`now`; on success `update_sets` adds `q` to the `queued` status set and
drops `q` from the `active` status set iff `active:<q>` became empty;
`q` is published on the activity channel iff an ID moved. -/
def expireOne (s : Broker) (now : Int) (q : String) : List String × Broker :=
  let r := zpoppush (s.activeZ q) (s.queuedZ q) ACTIVE_TASK_EXPIRED_BATCH_SIZE
    (some (now - ACTIVE_TASK_UPDATE_TIMEOUT)) now
  (r.1,
   { s with
     activeZ := updQ s.activeZ q r.2.1,
     queuedZ := updQ s.queuedZ q r.2.2,
     queuedSet := if r.1.isEmpty then s.queuedSet else sadd s.queuedSet q,
     activeSet := if r.1.isEmpty then s.activeSet
       else if r.2.1.isEmpty then srem s.activeSet q else s.activeSet,
     published := if r.1.isEmpty then s.published else s.published ++ [q] })

/-- Model of `_worker_queue_expired_tasks`: run the expiry step for every queue in
the snapshot of the `active` status set. -/
def _worker_queue_expired_tasks (s : Broker) (now : Int) : Broker :=
  s.activeSet.foldl (fun st q => (expireOne st now q).2) s

/-- Model of `_heartbeat(queue, task_id)`: rescore the ID in `active:<queue>`. -/
def _heartbeat (s : Broker) (q task_id : String) (now : Int) : Broker :=
  { s with activeZ := updQ s.activeZ q (zadd (s.activeZ q) task_id now) }

/-! ### Executor -/

/-- Result of invoking the resolved callable under the death penalty:
normal return, or an exception (a hard-timeout expiry raises
`JobTimeoutException` and is an exception like any other). -/
inductive ExecOutcome where
  | ok : ExecOutcome
  | exc : String → ExecOutcome

/-- The ambient Python environment of one execution: the importable
functions, the behaviour of calling a function (given args, kwargs and
the enforced hard timeout), the clock readings, and the heartbeat times
at which the parent's wait was interrupted. -/
structure ExecEnv where
  resolve : String → Option PyFunc
  behave : String → JVal → JVal → Nat → ExecOutcome
  timeStarted : Int
  timeFailed : Int
  heartbeats : List Int

/-- Python `a or b` on an optional number (`None` and `0` are falsy). -/
def pyOrNat : Option Nat → Nat → Nat
  | some n, d => if n = 0 then d else n
  | none, d => d

/-- The or-chain of `_execute_forked` choosing the enforced deadline:
the record's `hard_timeout`, else the callable's `_task_hard_timeout`,
else `DEFAULT_HARD_TIMEOUT`. -/
def resolvedHardTimeout (taskHT funcHT : Option Nat) : Nat :=
  pyOrNat taskHT (pyOrNat funcHT DEFAULT_HARD_TIMEOUT)

/-- Model of `_execute_forked(task)`: resolve the callable (an unresolvable name
is a failure), invoke it under the hard timeout, and - since only failed
executions are logged - append an execution record to
`task:<id>:executions` iff the outcome is a failure. -/
def _execute_forked (env : ExecEnv) (t : TaskRecord) (s : Broker) : Bool × Broker :=
  match env.resolve t.func with
  | none =>
      (false,
       { s with executions := fun x => if x = t.id then
           s.executions x ++
             [{ time_started := none, traceback := none, time_failed := none, success := false }]
         else s.executions x })
  | some f =>
      let args := t.args.getD (JVal.arr [])
      let kwargs := t.kwargs.getD (JVal.obj [])
      let ht := resolvedHardTimeout t.hard_timeout f.task_hard_timeout
      match env.behave t.func args kwargs ht with
      | .ok => (true, s)
      | .exc tb =>
          (false,
           { s with executions := fun x => if x = t.id then
               s.executions x ++
                 [{ time_started := some env.timeStarted, traceback := some tb,
                    time_failed := some env.timeFailed, success := false }]
             else s.executions x })

/-- How the child terminated: normal exit with an exit code, or killed
by a signal. -/
inductive ChildExit where
  | exited : Nat → ChildExit
  | signaled : Nat → ChildExit

/-- The raw wait status returned by `os.waitpid` for a termination:
exit code in the high byte, terminating signal (7 bits) in the low
byte. -/
def waitStatus : ChildExit → Nat
  | .exited code => code % 256 * 256
  | .signaled sg => sg % 128

/-- The parent's translation of the wait status into a boolean outcome
(`status = not return_code`). -/
def _executeOutcome (e : ChildExit) : Bool :=
  waitStatus e == 0

/-- Model of `_execute(queue, task)`: fork; the child runs `_execute_forked` and
exits with `int(not success)`; the parent heartbeats `active:<queue>` on
every timer interruption of its wait and finally translates the child's
wait status into the boolean outcome. -/
def _execute (env : ExecEnv) (q : String) (t : TaskRecord) (s : Broker) : Bool × Broker :=
  let s1 := env.heartbeats.foldl (fun st now => _heartbeat st q t.id now) s
  let r := _execute_forked env t s1
  let childStatus := ChildExit.exited (if r.1 then 0 else 1)
  (_executeOutcome childStatus, r.2)

/-- Model of `_process_from_queue(queue)`: claim one ID; when none, report the
queue empty; when the record is missing, return the ID untouched; else
execute and reconcile according to the outcome.  `now` is the claim
time, `now2` the failure time. -/
def _process_from_queue (env : ExecEnv) (s : Broker) (q : String) (now now2 : Int) :
    Option String × Broker :=
  let c := claimOp s q now
  match c.1 with
  | [] => (none, c.2)
  | task_id :: _ =>
    match c.2.records task_id with
    | none => (some task_id, c.2)
    | some t =>
      let r := _execute env q t c.2
      if r.1 then (some task_id, successReconcile r.2 q task_id t.unique)
      else (some task_id, failureReconcile r.2 q task_id now2)

/-! ### The status/bucket view and the at-most-one-bucket invariant -/

/-- A task status. -/
inductive Status where
  | queued
  | active
  | error
deriving DecidableEq

/-- The `<status>:<queue>` sorted set of a broker state. -/
def bucketZ (s : Broker) : Status → String → Zset
  | .queued, q => s.queuedZ q
  | .active, q => s.activeZ q
  | .error, q => s.errorZ q

/-- Invariant 1 of the spec: a task ID is a member of at most one
`<status>:<queue>` sorted set. -/
def Inv (s : Broker) : Prop :=
  ∀ id st1 q1 st2 q2, zmem (bucketZ s st1 q1) id = true →
    zmem (bucketZ s st2 q2) id = true → st1 = st2 ∧ q1 = q2

/-! ### Concrete scenario states -/

/-- An undecorated demo function `m.f`. -/
def demoFunc : PyFunc := mkFunc "m" "f"

/-- The content-hash ID of the unique demo task (no args, no kwargs). -/
def demoId : String := _gen_unique_id "m.f" JVal.null JVal.null

/-- Enqueue the unique demo task on the empty broker at time 0. -/
def demoS1 : Broker :=
  ((delay emptyBroker demoFunc JVal.null JVal.null none none (some true) 0 "r1").getD
    ("", "", emptyBroker)).2.2

/-- Next, claim the unique demo task at time 1 (after this it is only in
`active:default`). -/
def demoS2 : Broker := (claimOp demoS1 "default" 1).2

/-- Next, re-enqueue the same unique task at time 2 while it is active. -/
def demoS3 : Broker :=
  ((delay demoS2 demoFunc JVal.null JVal.null none none (some true) 2 "r2").getD
    ("", "", emptyBroker)).2.2

/-- Re-enqueue the same unique task at time 5 while it is still queued
(directly from `demoS1`). -/
def demoReS1 : Broker :=
  ((delay demoS1 demoFunc JVal.null JVal.null none none (some true) 5 "r2").getD
    ("", "", emptyBroker)).2.2

/-- A broker holding one claimed task `a` in `active:default`, with its
record and one failed execution logged. -/
def c1s : Broker :=
  { emptyBroker with
    activeSet := ["default"],
    activeZ := fun q => if q = "default" then [("a", 0)] else [],
    records := fun x => if x = "a" then
        some (buildTask "a" "m.f" JVal.null JVal.null false none 0)
      else none,
    executions := fun x => if x = "a" then
        [{ time_started := some 0, traceback := some "tb", time_failed := some 1,
           success := false }]
      else [] }

/-- An environment in which no callable identifier resolves. -/
def c2env : ExecEnv :=
  { resolve := fun _ => none, behave := fun _ _ _ _ => ExecOutcome.ok,
    timeStarted := 3, timeFailed := 4, heartbeats := [] }

/-- A broker holding one queued task `a` in `queued:default` with its
record present. -/
def c2s : Broker :=
  { emptyBroker with
    queuedSet := ["default"],
    queuedZ := fun q => if q = "default" then [("a", 0)] else [],
    records := fun x => if x = "a" then
        some (buildTask "a" "m.f" JVal.null JVal.null false none 0)
      else none }

/-- A broker holding one long-expired claimed task `a` in
`active:default` (score far below any reclaim horizon). -/
def c8s : Broker :=
  { emptyBroker with
    activeSet := ["default"],
    activeZ := fun q => if q = "default" then [("a", -100)] else [] }

/-- A broker holding one queued orphan ID `a` (no record stored). -/
def c9s : Broker :=
  { emptyBroker with
    queuedSet := ["default"],
    queuedZ := fun q => if q = "default" then [("a", 0)] else [] }

/-- Enqueue a non-unique task with `hard_timeout=0` at time 3 (random
ID draw `r0`). -/
def c10s : Broker :=
  ((delay emptyBroker demoFunc JVal.null JVal.null none (some 0) none 3 "r0").getD
    ("", "", emptyBroker)).2.2

/-! ### Sorted-set and set lemmas -/

theorem contains_true_iff {l : List String} {x : String} : l.contains x = true ↔ x ∈ l :=
  List.elem_iff

theorem zmem_true_iff {z : Zset} {x : String} : zmem z x = true ↔ ∃ sc, (x, sc) ∈ z := by
  simp only [zmem, List.any_eq_true, beq_iff_eq]
  constructor
  · rintro ⟨⟨a, b⟩, hm, rfl⟩
    exact ⟨b, hm⟩
  · rintro ⟨sc, h⟩
    exact ⟨(x, sc), h, rfl⟩

theorem zmem_zadd_iff {z : Zset} {y x : String} {sc : Int} :
    zmem (zadd z y sc) x = true ↔ (x = y ∨ zmem z x = true) := by
  simp only [zmem_true_iff, zadd, List.mem_cons, List.mem_filter, Prod.mk.injEq, bne_iff_ne,
    ne_eq]
  constructor
  · rintro ⟨sc', ⟨rfl, rfl⟩ | ⟨hm, _⟩⟩
    · exact Or.inl rfl
    · exact Or.inr ⟨sc', hm⟩
  · rintro (rfl | ⟨sc', hm⟩)
    · exact ⟨sc, Or.inl ⟨rfl, rfl⟩⟩
    · by_cases hxy : x = y
      · exact ⟨sc, Or.inl ⟨hxy, rfl⟩⟩
      · exact ⟨sc', Or.inr ⟨hm, fun h => hxy h⟩⟩

theorem zmem_zrem_iff {z : Zset} {y x : String} :
    zmem (zrem z y) x = true ↔ (zmem z x = true ∧ x ≠ y) := by
  simp only [zmem_true_iff, zrem, List.mem_filter, bne_iff_ne, ne_eq]
  constructor
  · rintro ⟨sc, hm, hne⟩
    exact ⟨⟨sc, hm⟩, hne⟩
  · rintro ⟨⟨sc, hm⟩, hne⟩
    exact ⟨sc, hm, hne⟩

theorem zmem_filter_not_contains {z : Zset} {l : List String} {x : String} :
    zmem (z.filter fun p => !l.contains p.1) x = true ↔ (zmem z x = true ∧ x ∉ l) := by
  simp only [zmem_true_iff, List.mem_filter, Bool.not_eq_true']
  constructor
  · rintro ⟨sc, hm, hc⟩
    refine ⟨⟨sc, hm⟩, fun hmem => ?_⟩
    have h3 := contains_true_iff.mpr hmem
    rw [h3] at hc
    simp at hc
  · rintro ⟨⟨sc, hm⟩, hnm⟩
    refine ⟨sc, hm, ?_⟩
    by_cases hc : l.contains x = true
    · exact absurd (contains_true_iff.mp hc) hnm
    · simpa using hc

theorem zmem_foldl_zadd {l : List String} {dst : Zset} {sc : Int} {x : String} :
    zmem (l.foldl (fun d y => zadd d y sc) dst) x = true ↔ (zmem dst x = true ∨ x ∈ l) := by
  induction l generalizing dst with
  | nil => simp
  | cons y ys ih =>
    simp only [List.foldl_cons, ih, zmem_zadd_iff, List.mem_cons]
    tauto

theorem zscore_zadd_self {z : Zset} {x : String} {sc : Int} :
    zscore (zadd z x sc) x = some sc := by
  simp [zscore, zadd]

theorem zscore_filter_ne {z : Zset} {x y : String} (h : x ≠ y) :
    zscore (z.filter fun p => p.1 != y) x = zscore z x := by
  induction z with
  | nil => rfl
  | cons p t ih =>
    rcases p with ⟨a, b⟩
    by_cases hay : a = y
    · subst hay
      have h1 : (a != a) = false := by simp
      have h2 : (a == x) = false := by simp; exact fun he => h he.symm
      simp only [List.filter_cons, h1, if_false, zscore, List.find?, h2] at ih ⊢
      exact ih
    · have h1 : (a != y) = true := by simp [hay]
      simp only [List.filter_cons, h1, if_true]
      by_cases hax : a = x
      · subst hax
        simp [zscore, List.find?]
      · have h2 : (a == x) = false := by simp [hax]
        simp only [zscore, List.find?, h2] at ih ⊢
        exact ih

theorem zscore_zadd_ne {z : Zset} {x y : String} {sc : Int} (h : x ≠ y) :
    zscore (zadd z y sc) x = zscore z x := by
  have hyx : (y == x) = false := by simp; exact fun he => h he.symm
  simp only [zadd, zscore, List.find?, hyx]
  exact zscore_filter_ne h

theorem zscore_foldl_zadd_not_mem {l : List String} {dst : Zset} {sc : Int} {x : String}
    (h : x ∉ l) : zscore (l.foldl (fun d y => zadd d y sc) dst) x = zscore dst x := by
  induction l generalizing dst with
  | nil => rfl
  | cons y ys ih =>
    simp only [List.mem_cons, not_or] at h
    simp only [List.foldl_cons, ih h.2]
    exact zscore_zadd_ne h.1

theorem zscore_foldl_zadd_mem {l : List String} {dst : Zset} {sc : Int} {x : String}
    (h : x ∈ l) : zscore (l.foldl (fun d y => zadd d y sc) dst) x = some sc := by
  induction l generalizing dst with
  | nil => cases h
  | cons y ys ih =>
    by_cases hx : x ∈ ys
    · exact ih hx
    · have hxy : x = y := by
        rcases List.mem_cons.mp h with h | h
        · exact h
        · exact absurd h hx
      subst hxy
      simp only [List.foldl_cons]
      rw [zscore_foldl_zadd_not_mem hx, zscore_zadd_self]

theorem mem_sadd_iff {l : List String} {x y : String} :
    x ∈ sadd l y ↔ (x ∈ l ∨ x = y) := by
  unfold sadd
  by_cases hc : l.contains y = true
  · simp only [hc, if_true]
    constructor
    · exact Or.inl
    · rintro (h | rfl)
      · exact h
      · exact List.elem_iff.mp hc
  · simp only [hc, if_false]
    simp

theorem mem_srem_iff {l : List String} {x y : String} :
    x ∈ srem l y ↔ (x ∈ l ∧ x ≠ y) := by
  simp [srem, List.mem_filter]

/-! ### zpoppush lemmas -/

theorem zpoppush_moved_sub {src dst : Zset} {c : Nat} {ms : Option Int} {ns : Int} {x : String}
    (h : x ∈ (zpoppush src dst c ms ns).1) : zmem src x = true := by
  simp only [zpoppush, List.mem_map] at h
  obtain ⟨p, hp, rfl⟩ := h
  have h1 := List.take_subset _ _ hp
  have h2 := (List.mem_filter.mp h1).1
  exact zmem_true_iff.mpr ⟨p.2, h2⟩

theorem zpoppush_moved_le {src dst : Zset} {c : Nat} {m : Int} {ns : Int} {x : String}
    (h : x ∈ (zpoppush src dst c (some m) ns).1) : ∃ sc, (x, sc) ∈ src ∧ sc ≤ m := by
  simp only [zpoppush, List.mem_map] at h
  obtain ⟨p, hp, rfl⟩ := h
  have h1 := List.take_subset _ _ hp
  have h2 := List.mem_filter.mp h1
  exact ⟨p.2, h2.1, of_decide_eq_true h2.2⟩

theorem zpoppush_length_le {src dst : Zset} {c : Nat} {ms : Option Int} {ns : Int} :
    (zpoppush src dst c ms ns).1.length ≤ c := by
  simp only [zpoppush, List.length_map]
  exact List.length_take_le _ _

theorem zpoppush_src_mem {src dst : Zset} {c : Nat} {ms : Option Int} {ns : Int} {x : String} :
    zmem (zpoppush src dst c ms ns).2.1 x = true ↔
      (zmem src x = true ∧ x ∉ (zpoppush src dst c ms ns).1) :=
  zmem_filter_not_contains

theorem zpoppush_dst_mem {src dst : Zset} {c : Nat} {ms : Option Int} {ns : Int} {x : String} :
    zmem (zpoppush src dst c ms ns).2.2 x = true ↔
      (zmem dst x = true ∨ x ∈ (zpoppush src dst c ms ns).1) :=
  zmem_foldl_zadd

theorem zpoppush_dst_score {src dst : Zset} {c : Nat} {ms : Option Int} {ns : Int} {x : String}
    (h : x ∈ (zpoppush src dst c ms ns).1) : zscore (zpoppush src dst c ms ns).2.2 x = some ns :=
  zscore_foldl_zadd_mem h

/-! ### The at-most-one-bucket invariant -/

theorem Inv_emptyBroker : Inv emptyBroker := by
  intro id st1 q1 st2 q2 h1 h2
  cases st1 <;> simp [bucketZ, emptyBroker, zmem] at h1

/-- Master preservation lemma: an atomic move of a batch of members from
bucket `(stS, q)` to bucket `(stD, q)` preserves the invariant. -/
theorem Inv_move {s s' : Broker} {stS stD : Status} {q : String} {moved : List String}
    (hsub : ∀ x ∈ moved, zmem (bucketZ s stS q) x = true)
    (hchar : ∀ st q' x, zmem (bucketZ s' st q') x = true ↔
        (if st = stS ∧ q' = q then zmem (bucketZ s st q') x = true ∧ x ∉ moved
         else if st = stD ∧ q' = q then zmem (bucketZ s st q') x = true ∨ x ∈ moved
         else zmem (bucketZ s st q') x = true))
    (hInv : Inv s) : Inv s' := by
  intro id st1 q1 st2 q2 h1 h2
  rw [hchar] at h1 h2
  have origin : ∀ st q', (if st = stS ∧ q' = q then
        zmem (bucketZ s st q') id = true ∧ id ∉ moved
      else if st = stD ∧ q' = q then zmem (bucketZ s st q') id = true ∨ id ∈ moved
      else zmem (bucketZ s st q') id = true) →
      (zmem (bucketZ s st q') id = true ∨ ((st = stD ∧ q' = q) ∧ id ∈ moved)) := by
    intro st q' h
    split at h
    · exact Or.inl h.1
    · split at h
      · rcases h with h | h
        · exact Or.inl h
        · rename_i hcond
          exact Or.inr ⟨hcond, h⟩
      · exact Or.inl h
  rcases origin st1 q1 h1 with o1 | ⟨⟨e1, f1⟩, m1⟩
  · rcases origin st2 q2 h2 with o2 | ⟨⟨e2, f2⟩, m2⟩
    · exact hInv id st1 q1 st2 q2 o1 o2
    · have hS := hsub id m2
      have he := hInv id st1 q1 stS q o1 hS
      rw [he.1, he.2] at h1
      simp only [and_self, if_true, true_and] at h1
      exact absurd m2 h1.2
  · rcases origin st2 q2 h2 with o2 | ⟨⟨e2, f2⟩, m2⟩
    · have hS := hsub id m1
      have he := hInv id stS q st2 q2 hS o2
      rw [← he.1, ← he.2] at h2
      simp only [and_self, if_true, true_and] at h2
      exact absurd m1 h2.2
    · exact ⟨e1.trans e2.symm, f1.trans f2.symm⟩

/-- Restriction preservation lemma: an operation that only ever removes
members from buckets preserves the invariant. -/
theorem Inv_of_sub {s s' : Broker}
    (h : ∀ st q x, zmem (bucketZ s' st q) x = true → zmem (bucketZ s st q) x = true)
    (hInv : Inv s) : Inv s' := by
  intro id st1 q1 st2 q2 h1 h2
  exact hInv id st1 q1 st2 q2 (h st1 q1 id h1) (h st2 q2 id h2)

/-- Bucket membership after the claim step: `queued:<q>` loses the moved
IDs, `active:<q>` gains them, every other bucket is untouched. -/
theorem claimOp_char (s : Broker) (q : String) (now : Int) :
    ∀ st q' x, zmem (bucketZ (claimOp s q now).2 st q') x = true ↔
      (if st = Status.queued ∧ q' = q then
        zmem (bucketZ s st q') x = true ∧ x ∉ (claimOp s q now).1
       else if st = Status.active ∧ q' = q then
        zmem (bucketZ s st q') x = true ∨ x ∈ (claimOp s q now).1
       else zmem (bucketZ s st q') x = true) := by
  intro st q' x
  cases st <;> by_cases hq : q' = q <;>
    simp [claimOp, bucketZ, updQ, hq, zpoppush_src_mem, zpoppush_dst_mem]

theorem Inv_claimOp {s : Broker} {q : String} {now : Int} (hInv : Inv s) :
    Inv (claimOp s q now).2 := by
  refine @Inv_move s (claimOp s q now).2 Status.queued Status.active q (claimOp s q now).1
    ?_ (claimOp_char s q now) hInv
  intro x hx
  simp only [claimOp] at hx
  exact zpoppush_moved_sub hx

/-- Bucket membership after one queue of the expiry pass: `active:<q>`
loses the moved IDs, `queued:<q>` gains them, every other bucket is
untouched. -/
theorem expireOne_char (s : Broker) (now : Int) (q : String) :
    ∀ st q' x, zmem (bucketZ (expireOne s now q).2 st q') x = true ↔
      (if st = Status.active ∧ q' = q then
        zmem (bucketZ s st q') x = true ∧ x ∉ (expireOne s now q).1
       else if st = Status.queued ∧ q' = q then
        zmem (bucketZ s st q') x = true ∨ x ∈ (expireOne s now q).1
       else zmem (bucketZ s st q') x = true) := by
  intro st q' x
  cases st <;> by_cases hq : q' = q <;>
    simp [expireOne, bucketZ, updQ, hq, zpoppush_src_mem, zpoppush_dst_mem]

theorem Inv_expireOne {s : Broker} {now : Int} {q : String} (hInv : Inv s) :
    Inv (expireOne s now q).2 := by
  refine @Inv_move s (expireOne s now q).2 Status.active Status.queued q (expireOne s now q).1
    ?_ (expireOne_char s now q) hInv
  intro x hx
  simp only [expireOne] at hx
  exact zpoppush_moved_sub hx

theorem Inv_worker_queue_expired_tasks {s : Broker} {now : Int} (hInv : Inv s) :
    Inv (_worker_queue_expired_tasks s now) := by
  unfold _worker_queue_expired_tasks
  generalize s.activeSet = l
  induction l generalizing s with
  | nil => exact hInv
  | cons q qs ih => exact ih (Inv_expireOne hInv)

theorem Inv_successReconcile {s : Broker} {q task_id : String} {uniq : Bool} (hInv : Inv s) :
    Inv (successReconcile s q task_id uniq) := by
  refine Inv_of_sub ?_ hInv
  intro st q' x h
  cases st <;> by_cases hq : q' = q <;>
    simp [successReconcile, bucketZ, updQ, hq, zmem_zrem_iff] at h ⊢ <;>
    first
      | exact h
      | exact h.1

theorem Inv_failureReconcile {s : Broker} {q task_id : String} {now : Int} (hInv : Inv s)
    (hqd : ∀ q', zmem (s.queuedZ q') task_id = false)
    (her : ∀ q', zmem (s.errorZ q') task_id = false)
    (hac : ∀ q', q' ≠ q → zmem (s.activeZ q') task_id = false) :
    Inv (failureReconcile s q task_id now) := by
  have char : ∀ st q' x, zmem (bucketZ (failureReconcile s q task_id now) st q') x = true ↔
      (if st = Status.active ∧ q' = q then zmem (bucketZ s st q') x = true ∧ x ≠ task_id
       else if st = Status.error ∧ q' = q then x = task_id ∨ zmem (bucketZ s st q') x = true
       else zmem (bucketZ s st q') x = true) := by
    intro st q' x
    cases st <;> by_cases hq : q' = q <;>
      simp [failureReconcile, bucketZ, updQ, hq, zmem_zrem_iff, zmem_zadd_iff]
  intro id st1 q1 st2 q2 h1 h2
  rw [char] at h1 h2
  by_cases hid : id = task_id
  · subst hid
    have only_err : ∀ st q', (if st = Status.active ∧ q' = q then
          zmem (bucketZ s st q') id = true ∧ id ≠ id
        else if st = Status.error ∧ q' = q then id = id ∨ zmem (bucketZ s st q') id = true
        else zmem (bucketZ s st q') id = true) → st = Status.error ∧ q' = q := by
      intro st q' h
      by_cases hA : st = Status.active ∧ q' = q
      · rw [if_pos hA] at h
        exact absurd rfl h.2
      · rw [if_neg hA] at h
        by_cases hE : st = Status.error ∧ q' = q
        · exact hE
        · rw [if_neg hE] at h
          exfalso
          cases st with
          | queued =>
            simp only [bucketZ] at h
            rw [hqd q'] at h
            simp at h
          | error =>
            by_cases hq : q' = q
            · exact hE ⟨rfl, hq⟩
            · simp only [bucketZ] at h
              rw [her q'] at h
              simp at h
          | active =>
            by_cases hq : q' = q
            · exact hA ⟨rfl, hq⟩
            · simp only [bucketZ] at h
              rw [hac q' hq] at h
              simp at h
    have r1 := only_err st1 q1 h1
    have r2 := only_err st2 q2 h2
    exact ⟨r1.1.trans r2.1.symm, r1.2.trans r2.2.symm⟩
  · have strip : ∀ st q', (if st = Status.active ∧ q' = q then
          zmem (bucketZ s st q') id = true ∧ id ≠ task_id
        else if st = Status.error ∧ q' = q then id = task_id ∨ zmem (bucketZ s st q') id = true
        else zmem (bucketZ s st q') id = true) → zmem (bucketZ s st q') id = true := by
      intro st q' h
      by_cases hA : st = Status.active ∧ q' = q
      · rw [if_pos hA] at h
        exact h.1
      · rw [if_neg hA] at h
        by_cases hE : st = Status.error ∧ q' = q
        · rw [if_pos hE] at h
          rcases h with h | h
          · exact absurd h hid
          · exact h
        · rw [if_neg hE] at h
          exact h
    exact hInv id st1 q1 st2 q2 (strip st1 q1 h1) (strip st2 q2 h2)

/-- Master preservation lemma for adding one member to bucket
`(stA, q)`: the invariant survives provided the member is in no other
bucket. -/
theorem Inv_addOne {s s' : Broker} {stA : Status} {q id : String}
    (hchar : ∀ st q' x, zmem (bucketZ s' st q') x = true ↔
        (if st = stA ∧ q' = q then x = id ∨ zmem (bucketZ s st q') x = true
         else zmem (bucketZ s st q') x = true))
    (hother : ∀ st q', ¬(st = stA ∧ q' = q) → zmem (bucketZ s st q') id = false)
    (hInv : Inv s) : Inv s' := by
  intro x st1 q1 st2 q2 h1 h2
  rw [hchar] at h1 h2
  by_cases hx : x = id
  · subst hx
    have only_new : ∀ st q', (if st = stA ∧ q' = q then
          x = x ∨ zmem (bucketZ s st q') x = true
        else zmem (bucketZ s st q') x = true) → st = stA ∧ q' = q := by
      intro st q' h
      by_cases hA : st = stA ∧ q' = q
      · exact hA
      · rw [if_neg hA] at h
        rw [hother st q' hA] at h
        simp at h
    have r1 := only_new st1 q1 h1
    have r2 := only_new st2 q2 h2
    exact ⟨r1.1.trans r2.1.symm, r1.2.trans r2.2.symm⟩
  · have strip : ∀ st q', (if st = stA ∧ q' = q then
          x = id ∨ zmem (bucketZ s st q') x = true
        else zmem (bucketZ s st q') x = true) → zmem (bucketZ s st q') x = true := by
      intro st q' h
      by_cases hA : st = stA ∧ q' = q
      · rw [if_pos hA] at h
        rcases h with h | h
        · exact absurd h hx
        · exact h
      · rw [if_neg hA] at h
        exact h
    exact hInv x st1 q1 st2 q2 (strip st1 q1 h1) (strip st2 q2 h2)

theorem Inv_delay {s : Broker} {f : PyFunc} {a k : JVal} {qo : Option String}
    {ht : Option Nat} {u : Option Bool} {now : Int} {rid : String}
    {id q : String} {s' : Broker}
    (hd : delay s f a k qo ht u now rid = some (id, q, s'))
    (hInv : Inv s)
    (hqd : ∀ q', q' ≠ q → zmem (s.queuedZ q') id = false)
    (hac : ∀ q', zmem (s.activeZ q') id = false)
    (her : ∀ q', zmem (s.errorZ q') id = false) :
    Inv s' := by
  unfold delay at hd
  by_cases hm : (f.module == "__main__") = true
  · rw [if_pos hm] at hd
    cases hd
  · rw [if_neg hm] at hd
    simp only [Option.some.injEq, Prod.mk.injEq] at hd
    obtain ⟨hid, hq, hs⟩ := hd
    subst hs
    refine @Inv_addOne s _ Status.queued q id ?_ ?_ hInv
    · intro st q' x
      subst hq
      cases st <;> by_cases hqq : q' = qo.getD (f.task_queue.getD DEFAULT_QUEUE) <;>
        simp [bucketZ, updQ, hqq, zmem_zadd_iff, hid]
    · intro st q' hA
      cases st with
      | queued =>
        by_cases hqq : q' = q
        · exact absurd ⟨rfl, hqq⟩ hA
        · exact hqd q' hqq
      | active => exact hac q'
      | error => exact her q'

/-! ### Heartbeat frame lemmas -/

theorem hbFold_errorZ (l : List Int) (s : Broker) (q i : String) :
    (l.foldl (fun st now => _heartbeat st q i now) s).errorZ = s.errorZ := by
  induction l generalizing s with
  | nil => rfl
  | cons t ts ih => exact ih (_heartbeat s q i t)

theorem hbFold_queuedZ (l : List Int) (s : Broker) (q i : String) :
    (l.foldl (fun st now => _heartbeat st q i now) s).queuedZ = s.queuedZ := by
  induction l generalizing s with
  | nil => rfl
  | cons t ts ih => exact ih (_heartbeat s q i t)

theorem hbFold_records (l : List Int) (s : Broker) (q i : String) :
    (l.foldl (fun st now => _heartbeat st q i now) s).records = s.records := by
  induction l generalizing s with
  | nil => rfl
  | cons t ts ih => exact ih (_heartbeat s q i t)

theorem hbFold_executions (l : List Int) (s : Broker) (q i : String) :
    (l.foldl (fun st now => _heartbeat st q i now) s).executions = s.executions := by
  induction l generalizing s with
  | nil => rfl
  | cons t ts ih => exact ih (_heartbeat s q i t)

/-! ### C1 — failure reconciliation -/

/-- Claim C1.  Evaluating the failure reconciliation at the failing input
(queue `default`, claimed task `a`, failure time 5): the ID leaves
`active:default`, `(a, 5)` enters `error:default`, `default` leaves the
`active` status set (the bucket is now empty), and the record and
execution log are retained - but the `error` status set stays empty:
no statement of the failure pipeline (nor any other code path) ever adds
the queue to the `error` status set, contradicting the spec sentence
"add `Q` to the `error` status set" and the source's own key
documentation for `SET <prefix>:error`. -/
theorem failure_reconcile_error_status_set_never_updated :
    zmem ((failureReconcile c1s "default" "a" 5).activeZ "default") "a" = false ∧
    zscore ((failureReconcile c1s "default" "a" 5).errorZ "default") "a" = some 5 ∧
    (failureReconcile c1s "default" "a" 5).activeSet = [] ∧
    (failureReconcile c1s "default" "a" 5).records "a" = c1s.records "a" ∧
    (failureReconcile c1s "default" "a" 5).executions "a" = c1s.executions "a" ∧
    (failureReconcile c1s "default" "a" 5).errorSet = [] :=
  ⟨rfl, rfl, rfl, rfl, rfl, rfl⟩

/-! ### C2 — unresolvable callable -/

/-- Claim C2, counterexample.  With an unresolvable callable the executor
does report failure, but - contrary to the claim that no execution
record is appended - `_execute_forked` appends one record
(`{success: false}`, no traceback) to `task:<id>:executions`. -/
theorem unresolvable_callable_appends_execution_record :
    (_execute_forked c2env (buildTask "a" "m.f" JVal.null JVal.null false none 0)
        emptyBroker).1 = false ∧
    ((_execute_forked c2env (buildTask "a" "m.f" JVal.null JVal.null false none 0)
        emptyBroker).2.executions "a").length = 1 :=
  ⟨rfl, rfl⟩

/-- Claim C2, amended.  If the task's callable identifier cannot be
resolved, the execution is treated as a failure - the claim returns the
ID, the ID is moved to `error:<q>`, the record is retained - and an
execution record containing only `success = false` (no traceback, no
timestamps) is appended to `task:<id>:executions`. -/
theorem unresolvable_callable_failure_path (env : ExecEnv) (s : Broker) (q : String)
    (now now2 : Int) (task_id : String) (t : TaskRecord)
    (hc : (claimOp s q now).1 = [task_id])
    (hr : (claimOp s q now).2.records task_id = some t)
    (hres : env.resolve t.func = none) :
    (_process_from_queue env s q now now2).1 = some task_id ∧
    zmem ((_process_from_queue env s q now now2).2.errorZ q) task_id = true ∧
    (_process_from_queue env s q now now2).2.executions t.id =
      s.executions t.id ++
        [{ time_started := none, traceback := none, time_failed := none,
           success := false }] ∧
    (_process_from_queue env s q now now2).2.records task_id = some t := by
  have hpq : _process_from_queue env s q now now2 =
      (some task_id,
       failureReconcile
         (_execute_forked env t
           (env.heartbeats.foldl (fun st now3 => _heartbeat st q t.id now3)
             (claimOp s q now).2)).2
         q task_id now2) := by
    simp only [_process_from_queue, hc, hr, _execute, _execute_forked, hres, _executeOutcome,
      waitStatus]
    rfl
  rw [hpq]
  refine ⟨rfl, ?_, ?_, ?_⟩
  · simp [failureReconcile, updQ, zmem_zadd_iff]
  · simp only [failureReconcile, _execute_forked, hres, hbFold_executions, if_pos]
    rfl
  · simp only [failureReconcile, _execute_forked, hres, hbFold_records, hr]

/-- Claim C2, witness.  The amended theorem applied at the one-task broker
`c2s` under the resolve-nothing environment. -/
theorem unresolvable_callable_failure_path_witness :
    zmem ((_process_from_queue c2env c2s "default" 1 2).2.errorZ "default") "a" = true :=
  (unresolvable_callable_failure_path c2env c2s "default" 1 2 "a"
    (buildTask "a" "m.f" JVal.null JVal.null false none 0) rfl rfl rfl).2.1

/-! ### C3 — the at-most-one-bucket invariant -/

/-- Claim C3, counterexample.  A state reachable by
enqueue-unique / claim / enqueue-unique (the same logical task) has the
content-hash ID in both `queued:default` and `active:default`: the
re-enqueue `zadd`s into `queued:<q>` unconditionally, so the claimed
invariant fails on this interleaving. -/
theorem unique_reenqueue_breaks_single_bucket_invariant :
    zmem (demoS3.queuedZ "default") demoId = true ∧
    zmem (demoS3.activeZ "default") demoId = true := by
  refine ⟨?_, ?_⟩ <;> rfl

/-- Claim C3, amended.  Claim, success reconciliation, the expired-task
reclaim pass, failure reconciliation when the ID is in no queued or
error bucket and active at most in its own queue, and enqueue when the
derived ID is in no active or error bucket and queued at most in the
target queue, each preserve the at-most-one-bucket invariant.  The
unguarded claim is false: an enqueue of a unique task whose ID still
sits in another bucket (and a failure reconciliation racing a reclaim)
put the ID into two buckets. -/
theorem single_bucket_invariant_preservation :
    (∀ s q now, Inv s → Inv (claimOp s q now).2) ∧
    (∀ s q task_id uniq, Inv s → Inv (successReconcile s q task_id uniq)) ∧
    (∀ s q task_id now, Inv s →
      (∀ q', zmem (s.queuedZ q') task_id = false) →
      (∀ q', zmem (s.errorZ q') task_id = false) →
      (∀ q', q' ≠ q → zmem (s.activeZ q') task_id = false) →
      Inv (failureReconcile s q task_id now)) ∧
    (∀ s now, Inv s → Inv (_worker_queue_expired_tasks s now)) ∧
    (∀ s f a k qo ht u now rid id q s', Inv s →
      delay s f a k qo ht u now rid = some (id, q, s') →
      (∀ q', q' ≠ q → zmem (s.queuedZ q') id = false) →
      (∀ q', zmem (s.activeZ q') id = false) →
      (∀ q', zmem (s.errorZ q') id = false) →
      Inv s') :=
  ⟨fun _ _ _ h => Inv_claimOp h,
   fun _ _ _ _ h => Inv_successReconcile h,
   fun _ _ _ _ h h1 h2 h3 => Inv_failureReconcile h h1 h2 h3,
   fun _ _ h => Inv_worker_queue_expired_tasks h,
   fun _ _ _ _ _ _ _ _ _ _ _ _ h hd h1 h2 h3 => Inv_delay hd h h1 h2 h3⟩

/-- Claim C3, witness.  The enqueue part of the amended theorem applied to
the empty broker: the state holding only the freshly enqueued unique
demo task satisfies the invariant. -/
theorem single_bucket_invariant_preservation_witness : Inv demoS1 :=
  single_bucket_invariant_preservation.2.2.2.2 emptyBroker demoFunc JVal.null JVal.null
    none none (some true) 0 "r1" demoId "default" demoS1 Inv_emptyBroker (by rfl)
    (fun _ _ => rfl) (fun _ => rfl) (fun _ => rfl)

/-! ### C4 — unique re-enqueue frame -/

/-- Claim C4, counterexample.  With the unique demo task's ID in
`active:default` (a status bucket) and in no other bucket, re-calling
`delay` with the same arguments changes the membership of the
`queued:default` status bucket from false to true - the claimed frame
("every status bucket's membership unchanged") fails. -/
theorem unique_reenqueue_while_active_changes_queued_bucket :
    zmem (demoS2.activeZ "default") demoId = true ∧
    zmem (demoS2.queuedZ "default") demoId = false ∧
    zmem (demoS3.queuedZ "default") demoId = true := by
  refine ⟨?_, ?_, ?_⟩ <;> rfl

theorem zmem_zadd_mem_eq {z : Zset} {id x : String} {sc : Int} (h : zmem z id = true) :
    zmem (zadd z id sc) x = zmem z x := by
  by_cases hx : x = id
  · subst hx
    rw [h]
    exact zmem_zadd_iff.mpr (Or.inl rfl)
  · refine Bool.eq_iff_iff.mpr ?_
    rw [zmem_zadd_iff]
    exact ⟨fun h2 => h2.resolve_left hx, Or.inr⟩

/-- Claim C4, amended.  For a unique task whose ID is currently in
`queued:<q>` of the resolved queue, re-calling `delay` with the same
`(func, args, kwargs)` (and the same timeout argument) leaves every
status bucket's membership unchanged - in particular it is always a
no-op for the `active` and `error` sorted sets - and rewrites the
record changing only its `time_last_queued` field.  (When the ID is
instead in `active:<q>` or `error:<q>`, the re-enqueue additionally
re-inserts the ID into `queued:<q>`; see the counterexample.) -/
theorem unique_reenqueue_while_queued_frame (s : Broker) (f : PyFunc) (a k : JVal)
    (qo : Option String) (ht : Option Nat) (now t0 : Int) (rid : String)
    (id q : String) (s' : Broker)
    (hd : delay s f a k qo ht (some true) now rid = some (id, q, s'))
    (hq : zmem (s.queuedZ q) id = true)
    (hrec : s.records id = some (buildTask id (f.module ++ "." ++ f.name) a k true ht t0)) :
    (∀ st q' x, zmem (bucketZ s' st q') x = zmem (bucketZ s st q') x) ∧
    s'.activeZ = s.activeZ ∧
    s'.errorZ = s.errorZ ∧
    s'.records id =
      some { buildTask id (f.module ++ "." ++ f.name) a k true ht t0 with
        time_last_queued := now } ∧
    (∀ x, x = id ∨ s'.records x = s.records x) := by
  unfold delay at hd
  by_cases hm : (f.module == "__main__") = true
  · rw [if_pos hm] at hd
    cases hd
  · rw [if_neg hm] at hd
    simp only [Option.some.injEq, Prod.mk.injEq] at hd
    obtain ⟨hid, hqe, hs⟩ := hd
    subst hs
    refine ⟨?_, rfl, rfl, ?_, ?_⟩
    · intro st q' x
      subst hqe
      cases st with
      | queued =>
        show zmem (updQ s.queuedZ _ _ q') x = zmem (s.queuedZ q') x
        rw [updQ]
        by_cases hqq : q' = qo.getD (f.task_queue.getD DEFAULT_QUEUE)
        · rw [if_pos hqq, hid, hqq]
          exact zmem_zadd_mem_eq hq
        · rw [if_neg hqq]
      | active => rfl
      | error => rfl
    · simp only [← hid]
      simp [buildTask]
    · intro x
      by_cases hx : x = id
      · exact Or.inl hx
      · refine Or.inr ?_
        simp only [hid]
        simp [hx]

/-- Claim C4, witness.  Re-enqueueing the queued unique demo task at time 5
rewrites only the record's `time_last_queued`. -/
theorem unique_reenqueue_while_queued_frame_witness :
    demoReS1.records demoId =
      some { buildTask demoId "m.f" JVal.null JVal.null true none 0 with
        time_last_queued := 5 } :=
  (unique_reenqueue_while_queued_frame demoS1 demoFunc JVal.null JVal.null none none 5 0 "r2"
    demoId "default" demoReS1 (by rfl) (by rfl) (by rfl)).2.2.2.1

/-! ### C5 — unique-task identity -/

/-- Claim C5.  Any two `delay` calls with `unique=true` and identical
`(func, args, kwargs)` - whatever the broker states, queues, timeouts,
clocks and random-ID draws - derive the same task ID, and that ID is
the hex SHA-256 digest of the sorted-keys JSON serialization of the
`{func, args, kwargs}` mapping. -/
theorem unique_id_deterministic_sha256 (s1 s2 : Broker) (f : PyFunc) (a k : JVal)
    (qo1 qo2 : Option String) (ht1 ht2 : Option Nat) (n1 n2 : Int) (r1 r2 : String)
    (id1 id2 q1 q2 : String) (s1' s2' : Broker)
    (h1 : delay s1 f a k qo1 ht1 (some true) n1 r1 = some (id1, q1, s1'))
    (h2 : delay s2 f a k qo2 ht2 (some true) n2 r2 = some (id2, q2, s2')) :
    id1 = id2 ∧
    id1 = sha256hex (utf8Bytes (jsonDumps (JVal.obj
      [("func", JVal.str (f.module ++ "." ++ f.name)), ("args", a), ("kwargs", k)]))) := by
  unfold delay at h1 h2
  by_cases hm : (f.module == "__main__") = true
  · rw [if_pos hm] at h1
    cases h1
  · rw [if_neg hm] at h1 h2
    simp only [Option.some.injEq, Prod.mk.injEq] at h1 h2
    obtain ⟨hida, -, -⟩ := h1
    obtain ⟨hidb, -, -⟩ := h2
    rw [← hida, ← hidb]
    exact ⟨rfl, rfl⟩

/-- Claim C5, witness.  The theorem applied to two enqueues of the unique
demo task at different times with different random draws. -/
theorem unique_id_deterministic_sha256_witness :
    demoId = demoId ∧
    demoId = sha256hex (utf8Bytes (jsonDumps (JVal.obj
      [("func", JVal.str "m.f"), ("args", JVal.null), ("kwargs", JVal.null)]))) :=
  unique_id_deterministic_sha256 emptyBroker emptyBroker demoFunc JVal.null JVal.null
    none none none none 0 7 "r1" "zz" demoId demoId "default" "default" demoS1
    (((delay emptyBroker demoFunc JVal.null JVal.null none none (some true) 7 "zz").getD
      ("", "", emptyBroker)).2.2) (by rfl) (by rfl)

/-! ### C6 — success reconciliation -/

/-- Claim C6.  The success reconciliation removes the ID from
`active:<q>`; deletes the record unconditionally when the task is not
unique and, when unique, keeps it iff the ID is in `queued:<q>` or
`error:<q>` (`delete_if_not_in_zsets`); drops `q` from the `active`
status set iff `active:<q>` is then empty; and touches no other key. -/
theorem success_reconciliation_spec (s : Broker) (q task_id : String) (uniq : Bool) :
    (∀ x, zmem ((successReconcile s q task_id uniq).activeZ q) x = true ↔
      (zmem (s.activeZ q) x = true ∧ x ≠ task_id)) ∧
    (∀ x, (successReconcile s q task_id uniq).records x =
      if x = task_id then
        (if uniq then
          (if zmem (s.queuedZ q) task_id || zmem (s.errorZ q) task_id then s.records task_id
           else none)
         else none)
      else s.records x) ∧
    (q ∈ (successReconcile s q task_id uniq).activeSet ↔
      (q ∈ s.activeSet ∧ (successReconcile s q task_id uniq).activeZ q ≠ [])) ∧
    (∀ q', (successReconcile s q task_id uniq).activeZ q' =
      if q' = q then zrem (s.activeZ q) task_id else s.activeZ q') ∧
    (successReconcile s q task_id uniq).queuedZ = s.queuedZ ∧
    (successReconcile s q task_id uniq).errorZ = s.errorZ ∧
    (successReconcile s q task_id uniq).executions = s.executions := by
  refine ⟨?_, ?_, ?_, ?_, rfl, rfl, rfl⟩
  · intro x
    simp [successReconcile, updQ, zmem_zrem_iff]
  · intro x
    by_cases hx : x = task_id
    · subst hx
      rfl
    · simp [successReconcile, hx]
  · by_cases hz : (zrem (s.activeZ q) task_id).isEmpty = true
    · have hz' : (successReconcile s q task_id uniq).activeZ q = [] := by
        show updQ _ q (zrem (s.activeZ q) task_id) q = []
        rw [updQ, if_pos rfl]
        exact List.isEmpty_iff.mp hz
      constructor
      · intro hmem
        have hsr : q ∈ srem s.activeSet q := by
          simpa [successReconcile, hz] using hmem
        exact absurd (mem_srem_iff.mp hsr).2 (by simp)
      · rintro ⟨-, hne⟩
        exact absurd hz' hne
    · have hset : (successReconcile s q task_id uniq).activeSet = s.activeSet := by
        simp [successReconcile, hz]
      have hzl : (successReconcile s q task_id uniq).activeZ q ≠ [] := by
        show updQ _ q (zrem (s.activeZ q) task_id) q ≠ []
        rw [updQ, if_pos rfl]
        simpa [List.isEmpty_iff] using hz
      rw [hset]
      exact ⟨fun h => ⟨h, hzl⟩, fun h => h.1⟩
  · intro q'
    rfl

/-! ### C7 — exit-status translation -/

/-- Claim C7.  The parent translates the raw wait status into a boolean
outcome: for a normal exit the outcome is success iff the exit code is
zero; a child terminated by a signal (any real signal number, nonzero
wait status) is reported as a failure; and the child's own
`os._exit(int(not success))` round-trips through this translation. -/
theorem exit_status_translation :
    (∀ code, code < 256 → (_executeOutcome (ChildExit.exited code) = true ↔ code = 0)) ∧
    (∀ sg, 0 < sg → sg < 128 → _executeOutcome (ChildExit.signaled sg) = false) ∧
    (∀ b, _executeOutcome (ChildExit.exited (if b then 0 else 1)) = b) := by
  refine ⟨?_, ?_, ?_⟩
  · intro code hc
    simp only [_executeOutcome, waitStatus, Nat.mod_eq_of_lt hc, beq_iff_eq]
    omega
  · intro sg h0 h128
    simp only [_executeOutcome, waitStatus, Nat.mod_eq_of_lt h128]
    simp only [beq_eq_false_iff_ne, ne_eq]
    omega
  · intro b
    cases b <;> rfl

/-- Claim C7, witness.  The translation at exit code 0 and at signal 9
(SIGKILL). -/
theorem exit_status_translation_witness :
    (_executeOutcome (ChildExit.exited 0) = true ↔ (0 : Nat) = 0) ∧
    _executeOutcome (ChildExit.signaled 9) = false :=
  ⟨exit_status_translation.1 0 (by decide),
   exit_status_translation.2.1 9 (by decide) (by decide)⟩

/-! ### C8 — expired-task reclaim -/

/-- Claim C8.  For a queue `q` of the `active` status set, one expiry step
moves at most `ACTIVE_TASK_EXPIRED_BATCH_SIZE` IDs, all with score at
most `now - ACTIVE_TASK_UPDATE_TIMEOUT` in `active:<q>`, into
`queued:<q>` with new score `now`; the moved IDs leave `active:<q>`;
when at least one ID moved the `update_sets` callback puts `q` into the
`queued` status set and keeps it in the `active` status set iff
`active:<q>` is still non-empty; and `q` is published on the activity
channel iff an ID moved.  The full pass is this step folded over the
`active` status set. -/
theorem expired_task_reclaim_spec (s : Broker) (now : Int) (q : String)
    (hq : q ∈ s.activeSet) :
    (expireOne s now q).1.length ≤ ACTIVE_TASK_EXPIRED_BATCH_SIZE ∧
    (∀ x, x ∈ (expireOne s now q).1 →
      ∃ sc, (x, sc) ∈ s.activeZ q ∧ sc ≤ now - ACTIVE_TASK_UPDATE_TIMEOUT) ∧
    (∀ x, x ∈ (expireOne s now q).1 →
      zscore ((expireOne s now q).2.queuedZ q) x = some now) ∧
    (∀ x, zmem ((expireOne s now q).2.activeZ q) x = true ↔
      (zmem (s.activeZ q) x = true ∧ x ∉ (expireOne s now q).1)) ∧
    ((expireOne s now q).1 ≠ [] →
      (q ∈ (expireOne s now q).2.queuedSet ∧
       (q ∈ (expireOne s now q).2.activeSet ↔ (expireOne s now q).2.activeZ q ≠ []))) ∧
    ((expireOne s now q).2.published =
      if (expireOne s now q).1.isEmpty then s.published else s.published ++ [q]) ∧
    _worker_queue_expired_tasks s now =
      s.activeSet.foldl (fun st q2 => (expireOne st now q2).2) s := by
  refine ⟨?_, ?_, ?_, ?_, ?_, rfl, rfl⟩
  · show (zpoppush (s.activeZ q) (s.queuedZ q) ACTIVE_TASK_EXPIRED_BATCH_SIZE
      (some (now - ACTIVE_TASK_UPDATE_TIMEOUT)) now).1.length ≤ ACTIVE_TASK_EXPIRED_BATCH_SIZE
    exact zpoppush_length_le
  · intro x hx
    have hx' : x ∈ (zpoppush (s.activeZ q) (s.queuedZ q) ACTIVE_TASK_EXPIRED_BATCH_SIZE
        (some (now - ACTIVE_TASK_UPDATE_TIMEOUT)) now).1 := hx
    exact zpoppush_moved_le hx'
  · intro x hx
    show zscore (updQ s.queuedZ q _ q) x = some now
    rw [updQ, if_pos rfl]
    exact zpoppush_dst_score hx
  · intro x
    show zmem (updQ s.activeZ q _ q) x = true ↔ _
    rw [updQ, if_pos rfl]
    exact zpoppush_src_mem
  · intro hne
    have hne' : (expireOne s now q).1.isEmpty = false := by
      simpa [List.isEmpty_iff] using hne
    constructor
    · show q ∈ (if (expireOne s now q).1.isEmpty then s.queuedSet else sadd s.queuedSet q)
      rw [hne']
      simp [mem_sadd_iff]
    · have haz : (expireOne s now q).2.activeZ q =
          (zpoppush (s.activeZ q) (s.queuedZ q) ACTIVE_TASK_EXPIRED_BATCH_SIZE
            (some (now - ACTIVE_TASK_UPDATE_TIMEOUT)) now).2.1 := by
        show updQ s.activeZ q _ q = _
        rw [updQ, if_pos rfl]
      have hset : (expireOne s now q).2.activeSet =
          (if (zpoppush (s.activeZ q) (s.queuedZ q) ACTIVE_TASK_EXPIRED_BATCH_SIZE
            (some (now - ACTIVE_TASK_UPDATE_TIMEOUT)) now).2.1.isEmpty
           then srem s.activeSet q else s.activeSet) := by
        show (if (expireOne s now q).1.isEmpty then s.activeSet else _) = _
        rw [hne']
        simp only [Bool.false_eq_true, if_false]
      rw [hset, haz]
      by_cases hsrc : (zpoppush (s.activeZ q) (s.queuedZ q) ACTIVE_TASK_EXPIRED_BATCH_SIZE
          (some (now - ACTIVE_TASK_UPDATE_TIMEOUT)) now).2.1.isEmpty = true
      · rw [hsrc]
        simp [mem_srem_iff, List.isEmpty_iff.mp hsrc]
      · rw [Bool.not_eq_true] at hsrc
        rw [hsrc]
        simp only [Bool.false_eq_true, if_false, ne_eq]
        have hsrc' : (zpoppush (s.activeZ q) (s.queuedZ q) ACTIVE_TASK_EXPIRED_BATCH_SIZE
            (some (now - ACTIVE_TASK_UPDATE_TIMEOUT)) now).2.1 ≠ [] := by
          intro hE
          rw [hE] at hsrc
          simp at hsrc
        exact ⟨fun _ => hsrc', fun _ => hq⟩

/-- Claim C8, witness.  The reclaim step applied to a broker holding one
long-expired active task: the ID is rescored into `queued:default` at
the reclaim time. -/
theorem expired_task_reclaim_spec_witness :
    zscore ((expireOne c8s 0 "default").2.queuedZ "default") "a" = some 0 :=
  (expired_task_reclaim_spec c8s 0 "default" (by decide)).2.2.1 "a" (by decide)

/-! ### C9 — orphan record after claim -/

/-- Claim C9.  When the record is missing after a claim, the worker does
not execute and does not reconcile: it returns the claimed ID with the
post-claim state unchanged, the ID is (still) in `active:<q>`, and no
record or execution log was touched by the claim. -/
theorem orphan_id_no_reconciliation (env : ExecEnv) (s : Broker) (q : String)
    (now now2 : Int) (task_id : String)
    (hc : (claimOp s q now).1 = [task_id])
    (hr : (claimOp s q now).2.records task_id = none) :
    _process_from_queue env s q now now2 = (some task_id, (claimOp s q now).2) ∧
    zmem ((claimOp s q now).2.activeZ q) task_id = true ∧
    (claimOp s q now).2.records = s.records ∧
    (claimOp s q now).2.executions = s.executions := by
  refine ⟨?_, ?_, rfl, rfl⟩
  · simp only [_process_from_queue, hc, hr]
  · have hm : task_id ∈ (zpoppush (s.queuedZ q) (s.activeZ q) 1 none now).1 := by
      have he : (zpoppush (s.queuedZ q) (s.activeZ q) 1 none now).1 = [task_id] := hc
      rw [he]
      exact List.mem_singleton.mpr rfl
    show zmem (updQ s.activeZ q (zpoppush (s.queuedZ q) (s.activeZ q) 1 none now).2.2 q)
      task_id = true
    rw [updQ, if_pos rfl]
    exact zpoppush_dst_mem.mpr (Or.inr hm)

/-- Claim C9, witness.  The theorem applied to a broker holding a queued ID
with no stored record. -/
theorem orphan_id_no_reconciliation_witness :
    zmem ((claimOp c9s "default" 1).2.activeZ "default") "a" = true :=
  (orphan_id_no_reconciliation c2env c9s "default" 1 2 "a" rfl rfl).2.1

/-! ### C10 — falsy hard timeout -/

/-- Claim C10.  A zero hard timeout can never take effect: `delay` with
`hard_timeout=0` stores a record without the `hard_timeout` key, the
`task` decorator likewise only stores a truthy `_task_hard_timeout`, and
the executor's or-chain therefore always resolves to a positive
deadline (falling through to the 300-second global default). -/
theorem hard_timeout_zero_never_effective :
    (∀ tid sname a k uniq now,
      (buildTask tid sname a k uniq (some 0) now).hard_timeout = none) ∧
    (∀ s f a k qo u now rid id q s',
      delay s f a k qo (some 0) u now rid = some (id, q, s') →
      s'.records id = some (buildTask id (f.module ++ "." ++ f.name) a k
        (u.getD f.task_unique) (some 0) now)) ∧
    (∀ tid sname a k uniq tHT now dq dht du m n,
      0 < resolvedHardTimeout ((buildTask tid sname a k uniq tHT now).hard_timeout)
        ((task dq dht du (mkFunc m n)).task_hard_timeout)) ∧
    DEFAULT_HARD_TIMEOUT = 300 := by
  refine ⟨?_, ?_, ?_, rfl⟩
  · intro tid sname a k uniq now
    rfl
  · intro s f a k qo u now rid id q s' hd
    unfold delay at hd
    by_cases hm : (f.module == "__main__") = true
    · rw [if_pos hm] at hd
      cases hd
    · rw [if_neg hm] at hd
      simp only [Option.some.injEq, Prod.mk.injEq] at hd
      obtain ⟨hid, -, hs⟩ := hd
      subst hs
      simp only [← hid]
      simp [buildTask]
  · intro tid sname a k uniq tHT now dq dht du m n
    rcases tHT with _ | t
    · rcases dht with _ | u
      · simp [buildTask, natOptTruthy, resolvedHardTimeout, pyOrNat, task, mkFunc,
          DEFAULT_HARD_TIMEOUT]
      · by_cases hu : u = 0 <;>
          simp [buildTask, natOptTruthy, resolvedHardTimeout, pyOrNat, task, mkFunc,
            DEFAULT_HARD_TIMEOUT, hu] <;>
          omega
    · by_cases htz : t = 0
      · subst htz
        rcases dht with _ | u
        · simp [buildTask, natOptTruthy, resolvedHardTimeout, pyOrNat, task, mkFunc,
            DEFAULT_HARD_TIMEOUT]
        · by_cases hu : u = 0 <;>
            simp [buildTask, natOptTruthy, resolvedHardTimeout, pyOrNat, task, mkFunc,
              DEFAULT_HARD_TIMEOUT, hu] <;>
            omega
      · simp [buildTask, natOptTruthy, resolvedHardTimeout, pyOrNat, htz]
        omega

/-- Claim C10, witness.  The record conjunct applied to a concrete enqueue
with `hard_timeout=0` (plus the omission fact at that record). -/
theorem hard_timeout_zero_never_effective_witness :
    c10s.records "r0" =
      some (buildTask "r0" "m.f" JVal.null JVal.null false (some 0) 3) ∧
    (buildTask "r0" "m.f" JVal.null JVal.null false (some 0) 3).hard_timeout = none :=
  ⟨hard_timeout_zero_never_effective.2.1 emptyBroker demoFunc JVal.null JVal.null none
    none 3 "r0" "r0" "default" c10s (by rfl),
   hard_timeout_zero_never_effective.1 "r0" "m.f" JVal.null JVal.null false 3⟩

end TaskTiger
